import Mathlib

/-!
Formal model of the corpus-to-block pipeline in `src/transformer/dombert/util.py`.

Python strings are modelled as lists of characters (`Str`), Python dicts as
insertion-ordered association lists, numpy arrays as lists of rows, and the
file system seen by the caching layer as an association list from path to
stored array.  Fallible operations (dictionary lookup that can raise
`KeyError`, header parsing that can raise `IndexError`, constructors that can
raise) return `Option`.
-/

namespace DomBert

/-- Python strings, modelled as lists of characters. -/
abbrev Str := List Char

def isWS (c : Char) : Bool := c.isWhitespace

/-- Python `str.strip()`: remove leading and trailing whitespace. -/
def strip (s : Str) : Str := ((s.dropWhile isWS).reverse.dropWhile isWS).reverse

/-- Python `str.split()` with no argument: split on runs of whitespace,
dropping empty pieces (so the empty string yields `[]`). -/
def pySplit (s : Str) : List Str := (s.splitOnP isWS).filter (fun p => !p.isEmpty)

/-- The domain expression of the header parse in `util.py`
(e.g. line 95): `"/".join(" ".join(segs[1:-1]).split("/")[:3])`. -/
def domainOf (middle : List Str) : Str :=
  List.intercalate (['/']) ((((List.intercalate ([' ']) middle).splitOn '/').take 3))

/-- Header parsing of `DOIDataset.__init__` (util.py lines 92-95):
`segs = text.split(); asin = segs[0]; rating = segs[-1]; domain = ...`.
Returns `(asin, domain, rating)`; `none` models the `IndexError` Python
raises when `segs` is empty (`segs[0]` out of range). -/
def parseHeader (text : Str) : Option (Str × Str × Str) :=
  match pySplit text with
  | [] => none
  | seg :: rest => some (seg, domainOf rest.dropLast, rest.getLastD seg)

/-! ### Insertion-ordered dictionaries (Python `dict` / `defaultdict`) -/

/-- Dictionary lookup (`d[k]` on the reading side; `none` models `KeyError`). -/
def alGet {β : Type} (k : Str) : List (Str × β) → Option β
  | [] => none
  | (k', v) :: rest => if k = k' then some v else alGet k rest

/-- Dictionary write `d[k] = v`: overwrite in place if the key exists,
else append at the end (Python dicts preserve insertion order). -/
def alSet {β : Type} (k : Str) (v : β) : List (Str × β) → List (Str × β)
  | [] => [(k, v)]
  | (k', v') :: rest => if k = k' then (k', v) :: rest else (k', v') :: alSet k v rest

/-- `defaultdict` access-and-mutate: apply `f` to the entry at `k`,
materialising it from the default `dflt` if absent. -/
def alUpd {β : Type} (k : Str) (dflt : β) (f : β → β) : List (Str × β) → List (Str × β)
  | [] => [(k, f dflt)]
  | (k', v) :: rest => if k = k' then (k', f v) :: rest else (k', v) :: alUpd k dflt f rest

/-- Bodies of one identifier, in file order. -/
abbrev Texts := List Str
/-- identifier → bodies, one (domain, rating) group. -/
abbrev AsinMap := List (Str × Texts)
/-- rating → identifiers. -/
abbrev RatingMap := List (Str × AsinMap)
/-- The nested `domain_corpus` defaultdict: domain → rating → identifier → bodies. -/
abbrev Corpus := List (Str × RatingMap)

/-- `domain_corpus[d][r][a].append(t)` (auto-vivifying all three levels). -/
def appendLine (d r a : Str) (t : Str) (c : Corpus) : Corpus :=
  alUpd d [] (alUpd r [] (alUpd a [] (fun ts => ts ++ [t]))) c

/-- The vivification performed by merely evaluating `domain_corpus[d][r]`
(as the capped variants do in their `len(...)` test). -/
def viv (d r : Str) (c : Corpus) : Corpus := alUpd d [] (alUpd r [] id) c

/-- The identifier map of one (domain, rating) pair (empty if absent). -/
def groupAsins (d r : Str) (c : Corpus) : AsinMap :=
  (alGet r ((alGet d c).getD [])).getD []

/-- The body list of one identifier, `none` if never tracked. -/
def getTexts (d r a : Str) (c : Corpus) : Option Texts := alGet a (groupAsins d r c)

/-- The capped insertion of `DiverseTagEmbDataset` (util.py lines 454-456,
cap 50) and `LRTagEmbDataset` (lines 539-541, cap 5000):
`if len(domain_corpus[domain][rating]) < cap: domain_corpus[domain][rating][asin].append(text)`.
The `len(...)` test itself vivifies the domain and rating levels. -/
def addLineCapped (cap : Nat) (d r a : Str) (t : Str) (c : Corpus) : Corpus :=
  let c₁ := viv d r c
  if (groupAsins d r c₁).length < cap then appendLine d r a t c₁ else c₁

/-! ### The streaming record parser / grouper loop -/

/-- Loop state of the `for line in f` loop: the `tag_on` flag, the header
fields most recently parsed, and the corpus built so far. -/
structure GState where
  tagOn : Bool
  asin : Str
  rating : Str
  domain : Str
  corpus : Corpus

def initGState : GState := ⟨true, [], [], [], []⟩

/-- The header branch (`tag_on = False; segs = text.split(); ...`).
On a header whose split is empty Python raises `IndexError`; that case is
unreachable in the loop because `text` is non-blank there, and is modelled
as leaving the fields unchanged. -/
def headerUpdate (st : GState) (text : Str) : GState :=
  match parseHeader text with
  | none => { st with tagOn := false }
  | some (a, d, r) =>
    { tagOn := false, asin := a, rating := r, domain := d, corpus := st.corpus }

/-- One loop iteration of `DOIDataset.__init__` (util.py lines 86-98):
blank line sets `tag_on`; header line parses; body line is appended
only if the current domain is NOT a domain of interest (line 97). -/
def doiStep (dois : List Str) (st : GState) (line : Str) : GState :=
  let text := strip line
  if text.isEmpty then { st with tagOn := true }
  else if st.tagOn then headerUpdate st text
  else if st.domain ∈ dois then st
  else { st with corpus := appendLine st.domain st.rating st.asin text st.corpus }

/-- One loop iteration of the capped variants (util.py lines 444-456 and
529-541): like `doiStep` but every body line goes through the cap test. -/
def cappedStep (cap : Nat) (st : GState) (line : Str) : GState :=
  let text := strip line
  if text.isEmpty then { st with tagOn := true }
  else if st.tagOn then headerUpdate st text
  else { st with corpus := addLineCapped cap st.domain st.rating st.asin text st.corpus }

/-- The DOI list of `DOIDataset` (util.py line 78). -/
def doiDois : List Str :=
  [("Electronics/Computers & Accessories/Laptops").toList, ("Restaurants").toList]

/-- The grouping pass of `DOIDataset.__init__` over the input lines. -/
def groupDOI (lines : List Str) : Corpus :=
  (lines.foldl (doiStep doiDois) initGState).corpus

/-- The grouping pass of `DiverseTagEmbDataset.__init__` (cap 50). -/
def groupDiverse (lines : List Str) : Corpus :=
  (lines.foldl (cappedStep 50) initGState).corpus

/-- The grouping pass of `LRTagEmbDataset.__init__` (cap 5000). -/
def groupLR (lines : List Str) : Corpus :=
  (lines.foldl (cappedStep 5000) initGState).corpus

/-! ### Domain vocabulary -/

/-- domain-or-reserved-token → integer id, insertion-ordered. -/
abbrev Vocab := List (Str × Nat)

def doiToken : Str := ("[DOI]").toList
def generalToken : Str := ("[GENERAL]").toList
def otherToken : Str := ("[OTHER]").toList

/-- Vocabulary build of `DOIDataset.__init__` (util.py lines 102-108):
start from `{"[DOI]": 0}` and assign `domain_to_id[domain] = len(domain_to_id)`
for each corpus domain not in the DOI list, in corpus iteration order. -/
def buildVocabDOI (dois : List Str) (domains : List Str) : Vocab :=
  domains.foldl (fun dict d => if d ∈ dois then dict else alSet d dict.length dict)
    [(doiToken, 0)]

/-- Vocabulary build of `DiverseTagEmbDataset.__init__` (util.py lines
459-464): start from `{"[GENERAL]": 0, "[OTHER]": 1}` and assign every corpus
domain `len(domain_to_id)` in corpus iteration order. -/
def buildVocabDiverse (domains : List Str) : Vocab :=
  domains.foldl (fun dict d => alSet d dict.length dict)
    [(generalToken, 0), (otherToken, 1)]

/-- The iteration order `for domain in domain_corpus`. -/
def corpusDomains (c : Corpus) : List Str := c.map Prod.fst

/-- The vocabulary `DOIDataset` builds on a training file. -/
def doiVocab (c : Corpus) : Vocab := buildVocabDOI doiDois (corpusDomains c)

/-! ### The block chunker

The `while len(buffer) >= block_size` loop (util.py lines 130-132) pops
`block_size` tokens off the front of the buffer per iteration.  It is
modelled with a fuel argument equal to the buffer length: since every
iteration consumes at least one token (the loop only runs when
`0 < block_size`), this fuel never runs out before the loop condition
fails, so the fuelled function computes exactly the loop.  (For
`block_size = 0` the Python loop would never terminate; the `0 < bs`
conjunct confines the model to the terminating domain.) -/

def drainAux {α : Type} (bs : Nat) : Nat → List α → List (List α) × List α
  | 0, buf => ([], buf)
  | fuel + 1, buf =>
    if 0 < bs ∧ bs ≤ buf.length then
      let r := drainAux bs fuel (buf.drop bs)
      (buf.take bs :: r.1, r.2)
    else ([], buf)

/-- Emit as many `bs`-token blocks as the buffer holds; return the blocks in
order together with the leftover buffer. -/
def drain {α : Type} (bs : Nat) (buf : List α) : List (List α) × List α :=
  drainAux bs buf.length buf

/-- The per-text part of the chunking loop (util.py lines 124-132): for each
body text, tokenize it, extend the buffer, then drain full blocks.  The
buffer is threaded through the whole (domain, rating) group. -/
def feedGroupAux {α : Type} (tokenize : Str → List α) (bs : Nat) (buf : List α) :
    List Str → List (List α) × List α
  | [] => ([], buf)
  | t :: ts =>
    let r := drain bs (buf ++ tokenize t)
    let rest := feedGroupAux tokenize bs r.2 ts
    (r.1 ++ rest.1, rest.2)

/-- Chunking of one (domain, rating) group, starting from the fresh empty
buffer created at line 122 of util.py. -/
def feedGroup {α : Type} (tokenize : Str → List α) (bs : Nat) (texts : List Str) :
    List (List α) × List α :=
  feedGroupAux tokenize bs [] texts

/-- All body texts of one (domain, rating) group, identifier by identifier in
corpus order (the `for asin ...: for text ...:` nesting, lines 123-124). -/
def pairTexts (am : AsinMap) : List Str := (am.map Prod.snd).flatten

/-- The raw (pre-framing) blocks emitted for one (domain, rating) group. -/
def pairBlocks {α : Type} (tokenize : Str → List α) (bs : Nat) (am : AsinMap) :
    List (List α) :=
  (feedGroup tokenize bs (pairTexts am)).1

/-- The (domain, rating) groups in iteration order
(`for domain ...: for rating ...:`, lines 116-119). -/
def pairsOf (c : Corpus) : List (Str × Str × AsinMap) :=
  (c.map (fun p => p.2.map (fun q => (p.1, q.1, q.2)))).flatten

/-! ### Framing and the full DOI pipeline -/

/-- The external tokenizer collaborator (spec section 6). -/
structure Tokenizer (α : Type) where
  tokenize : Str → List α
  convertTokensToIds : List α → List Nat
  buildInputsWithSpecialTokens : List Nat → List Nat

/-- Framing of one emitted block in `DOIDataset` (util.py lines 133-139):
convert the block to ids, prepend the domain segment id (the merged
`"[DOI]"` id for DOI domains, the domain's own id otherwise), and wrap
with the model's special tokens.  `none` models the `KeyError` Python
raises when the domain is missing from the vocabulary. -/
def rowOfBlock {α : Type} (tok : Tokenizer α) (vocab : Vocab) (dois : List Str)
    (d : Str) (b : List α) : Option (List Nat) :=
  (if d ∈ dois then alGet doiToken vocab else alGet d vocab).map
    (fun s => s :: tok.buildInputsWithSpecialTokens (tok.convertTokensToIds b))

/-- Option-valued map over a list, failing on the first failure. -/
def omapM {α β : Type} (f : α → Option β) : List α → Option (List β)
  | [] => some []
  | x :: xs =>
    match f x, omapM f xs with
    | some y, some ys => some (y :: ys)
    | _, _ => none

/-- The example rows `DOIDataset.__init__` assembles on a training file
(the cache-miss, `"train" in file_path` path of util.py lines 75-148),
before the `np.uint16` storage conversion. -/
def buildDOIExamples {α : Type} (tok : Tokenizer α) (bs : Nat) (lines : List Str) :
    Option (List (List Nat)) :=
  let c := groupDOI lines
  let vocab := doiVocab c
  (omapM (fun p => omapM (rowOfBlock tok vocab doiDois p.1)
      (pairBlocks tok.tokenize bs p.2.2)) (pairsOf c)).map List.flatten

/-! ### Array storage and per-index retrieval -/

/-- One cached example array: a list of rows. -/
abbrev ExArray := List (List Nat)

/-- The `np.uint16` element conversion applied when a row is appended
(util.py line 141): values are reduced modulo 2^16. -/
def toUInt16 (v : Nat) : Nat := v % 65536

/-- Storage of the assembled rows as a `uint16` array. -/
def storeExamples (rows : ExArray) : ExArray := rows.map (fun r => r.map toUInt16)

/-- The `astype(np.int64)` widening of one stored element. -/
def widen (v : Nat) : Int := (v : Int)

/-- `TextDataset.__getitem__` (util.py lines 61-62): fetch one stored row and
widen it to signed 64-bit integers. -/
def getItem (ex : ExArray) (i : Nat) : Option (List Int) :=
  (ex[i]?).map (fun r => r.map widen)

/-! ### The disk cache -/

/-- The directory contents seen by the caching layer: path → stored array. -/
abbrev FileSys := List (Str × ExArray)

/-- The cache file name scheme `<variant><block_size>_<source_filename>.npy`. -/
def cachedFeaturesFile (variant : Str) (bs : Nat) (filename : Str) : Str :=
  variant ++ (Nat.repr bs).toList ++ ['_'] ++ filename ++ (".npy").toList

/-- `DOIDataset` cache path (util.py line 70). -/
def doiCachePath (bs : Nat) (filename : Str) : Str :=
  cachedFeaturesFile (("cached_doimerged_").toList) bs filename

/-- `LaptopTSDataset` cache path (util.py line 158). -/
def laptopTSCachePath (bs : Nat) (filename : Str) : Str :=
  cachedFeaturesFile (("cached_doimerged_laptop_").toList) bs filename

/-- `RestTSDataset` cache path (util.py line 172). -/
def restTSCachePath (bs : Nat) (filename : Str) : Str :=
  cachedFeaturesFile (("cached_doimerged_restaurant_").toList) bs filename

/-- The cache discipline shared by the builders (util.py lines 72-74 and
148-150): if the cache file exists, load it verbatim (no validation against
the current corpus, no tokenization); otherwise use the freshly built rows
and persist them.  The third result component counts tokenizer invocations
performed by the call: `0` on a cache hit, the build's own count
(`builtTokCalls`) on a miss. -/
def getOrBuild (fs : FileSys) (path : Str) (built : ExArray) (builtTokCalls : Nat) :
    ExArray × FileSys × Nat :=
  match alGet path fs with
  | some arr => (arr, fs, 0)
  | none => (built, alSet path built fs, builtTokCalls)

/-- `LaptopTSDataset.__init__` (util.py lines 154-164): load the cache file
if present, else `raise Exception` (modelled as `none`) without building or
writing anything. -/
def laptopTSInit (fs : FileSys) (bs : Nat) (filename : Str) :
    Option (ExArray × FileSys) :=
  match alGet (laptopTSCachePath bs filename) fs with
  | some arr => some (arr, fs)
  | none => none

/-- `RestTSDataset.__init__` (util.py lines 168-178), same discipline. -/
def restTSInit (fs : FileSys) (bs : Nat) (filename : Str) :
    Option (ExArray × FileSys) :=
  match alGet (restTSCachePath bs filename) fs with
  | some arr => some (arr, fs)
  | none => none

/-! ### Chunker lemmas -/

theorem drainAux_zero_fuel {α : Type} (bs f : Nat) :
    drainAux bs f ([] : List α) = ([], []) := by
  cases f with
  | zero => rfl
  | succ f =>
    simp only [drainAux]
    split
    case isTrue h => exfalso; simp at h; omega
    case isFalse => rfl

theorem drainAux_fuel {α : Type} (bs : Nat) :
    ∀ (f f' : Nat) (l : List α), l.length ≤ f → l.length ≤ f' →
      drainAux bs f l = drainAux bs f' l
  | 0, f', l, hf, _ => by
    have hl : l = [] := List.length_eq_zero.mp (Nat.le_zero.mp hf)
    subst hl
    rw [drainAux_zero_fuel, drainAux_zero_fuel]
  | f + 1, 0, l, _, hf' => by
    have hl : l = [] := List.length_eq_zero.mp (Nat.le_zero.mp hf')
    subst hl
    rw [drainAux_zero_fuel, drainAux_zero_fuel]
  | f + 1, f' + 1, l, hf, hf' => by
    simp only [drainAux]
    split
    case isTrue h =>
      have hd : (l.drop bs).length ≤ f := by simp [List.length_drop]; omega
      have hd' : (l.drop bs).length ≤ f' := by simp [List.length_drop]; omega
      rw [drainAux_fuel bs f f' (l.drop bs) hd hd']
    case isFalse => rfl

/-- The `while` loop unfolding at the `drain` level. -/
theorem drain_unfold {α : Type} (bs : Nat) (l : List α) :
    drain bs l =
      if 0 < bs ∧ bs ≤ l.length then
        (l.take bs :: (drain bs (l.drop bs)).1, (drain bs (l.drop bs)).2)
      else ([], l) := by
  by_cases hc : 0 < bs ∧ bs ≤ l.length
  · rw [if_pos hc]
    unfold drain
    obtain ⟨n, hn⟩ : ∃ n, l.length = n + 1 := ⟨l.length - 1, by omega⟩
    have hd : (l.drop bs).length ≤ n := by simp [List.length_drop]; omega
    rw [hn]
    simp only [drainAux]
    rw [if_pos hc]
    rw [drainAux_fuel bs n (l.drop bs).length (l.drop bs) hd (Nat.le_refl _)]
  · rw [if_neg hc]
    unfold drain
    cases hl : l.length with
    | zero => rfl
    | succ n =>
      simp only [drainAux]
      rw [if_neg hc]

/-- Full characterisation of the drain loop: it emits `len / bs` blocks of
`bs` tokens each, whose concatenation is the first `len / bs * bs` tokens of
the buffer, and leaves the remaining `len mod bs` tokens buffered. -/
theorem drain_spec {α : Type} (bs : Nat) (h : 0 < bs) (buf : List α) :
    (drain bs buf).1.length = buf.length / bs ∧
    (drain bs buf).1.flatten = buf.take (buf.length / bs * bs) ∧
    (drain bs buf).2 = buf.drop (buf.length / bs * bs) ∧
    ∀ b ∈ (drain bs buf).1, b.length = bs := by
  rw [drain_unfold]
  split
  case isTrue hc =>
    have ih := drain_spec bs h (buf.drop bs)
    obtain ⟨ih1, ih2, ih3, ih4⟩ := ih
    have hlen : (buf.drop bs).length = buf.length - bs := by simp [List.length_drop]
    have hdiv : buf.length / bs = (buf.length - bs) / bs + 1 :=
      Nat.div_eq_sub_div h hc.2
    have hmul : buf.length / bs * bs = bs + (buf.length - bs) / bs * bs := by
      rw [hdiv]; ring
    refine ⟨?_, ?_, ?_, ?_⟩
    · simp only [List.length_cons, ih1, hlen, hdiv]
    · simp only [List.flatten_cons, ih2, hlen, hmul, List.take_add]
    · rw [ih3, hlen, List.drop_drop, hmul]
    · intro b hb
      rcases List.mem_cons.mp hb with hb | hb
      · subst hb
        simp [List.length_take]
        omega
      · exact ih4 b hb
  case isFalse hc =>
    have hlt : buf.length < bs := by omega
    have hdiv : buf.length / bs = 0 := Nat.div_eq_of_lt hlt
    simp [hdiv]
termination_by buf.length
decreasing_by simp [List.length_drop]; omega

/-- Leftover buffers are always shorter than a block. -/
theorem drain_rem_lt {α : Type} (bs : Nat) (h : 0 < bs) (buf : List α) :
    (drain bs buf).2.length < bs := by
  obtain ⟨-, -, h3, -⟩ := drain_spec bs h buf
  rw [h3]
  simp only [List.length_drop]
  have hdm := Nat.div_add_mod buf.length bs
  rw [Nat.mul_comm] at hdm
  have hml := Nat.mod_lt buf.length h
  omega

/-- Draining a concatenation is draining the first part, then draining its
leftover followed by the second part. -/
theorem drain_append {α : Type} (bs : Nat) (h : 0 < bs) (a b : List α) :
    drain bs (a ++ b) =
      ((drain bs a).1 ++ (drain bs ((drain bs a).2 ++ b)).1,
       (drain bs ((drain bs a).2 ++ b)).2) := by
  by_cases hc : bs ≤ a.length
  · have hab : bs ≤ (a ++ b).length := by rw [List.length_append]; omega
    have e1 : drain bs (a ++ b) =
        ((a ++ b).take bs :: (drain bs ((a ++ b).drop bs)).1,
         (drain bs ((a ++ b).drop bs)).2) := by
      rw [drain_unfold bs (a ++ b), if_pos (And.intro h hab)]
    have e2 : drain bs a =
        (a.take bs :: (drain bs (a.drop bs)).1, (drain bs (a.drop bs)).2) := by
      rw [drain_unfold bs a, if_pos (And.intro h hc)]
    have htk : (a ++ b).take bs = a.take bs := List.take_append_of_le_length hc
    have hdp : (a ++ b).drop bs = a.drop bs ++ b := List.drop_append_of_le_length hc
    have ih := drain_append bs h (a.drop bs) b
    rw [e1, e2, htk, hdp, ih]
    simp
  · have e2 : drain bs a = ([], a) := by
      rw [drain_unfold bs a]
      simp [hc]
    rw [e2]
    simp
termination_by a.length
decreasing_by simp [List.length_drop]; omega

/-- The per-text feeding loop started on a short buffer is the same as
draining the buffer followed by the concatenated token stream. -/
theorem feedGroupAux_eq {α : Type} (tokenize : Str → List α) (bs : Nat) (h : 0 < bs) :
    ∀ (ts : List Str) (buf : List α), buf.length < bs →
      feedGroupAux tokenize bs buf ts = drain bs (buf ++ (ts.map tokenize).flatten)
  | [], buf, hb => by
    rw [drain_unfold]
    simp only [List.map_nil, List.flatten_nil, List.append_nil]
    have : ¬ (0 < bs ∧ bs ≤ buf.length) := by omega
    simp [feedGroupAux, this]
  | t :: ts, buf, hb => by
    simp only [feedGroupAux]
    have hrem := drain_rem_lt bs h (buf ++ tokenize t)
    rw [feedGroupAux_eq tokenize bs h ts (drain bs (buf ++ tokenize t)).2 hrem]
    simp only [List.map_cons, List.flatten_cons]
    rw [show buf ++ (tokenize t ++ (ts.map tokenize).flatten)
          = (buf ++ tokenize t) ++ (ts.map tokenize).flatten by simp,
        drain_append bs h (buf ++ tokenize t) ((ts.map tokenize).flatten)]

/-- The group chunker equals a single drain of the group's whole stream. -/
theorem feedGroup_eq {α : Type} (tokenize : Str → List α) (bs : Nat) (h : 0 < bs)
    (ts : List Str) :
    feedGroup tokenize bs ts = drain bs ((ts.map tokenize).flatten) := by
  have := feedGroupAux_eq tokenize bs h ts [] (by simpa using h)
  simpa [feedGroup] using this

/-! ### Dictionary lemmas -/

theorem alGet_alUpd_self {β : Type} (k : Str) (dflt : β) (f : β → β) :
    ∀ l : List (Str × β), alGet k (alUpd k dflt f l) = some (f ((alGet k l).getD dflt))
  | [] => by simp [alGet, alUpd]
  | (k', v) :: rest => by
    by_cases hk : k = k'
    · simp [alGet, alUpd, hk]
    · simp only [alUpd, if_neg hk, alGet]
      exact alGet_alUpd_self k dflt f rest

theorem alGet_alUpd_ne {β : Type} (k₂ k : Str) (dflt : β) (f : β → β) (h : k₂ ≠ k) :
    ∀ l : List (Str × β), alGet k₂ (alUpd k dflt f l) = alGet k₂ l
  | [] => by simp [alGet, alUpd, h]
  | (k', v) :: rest => by
    by_cases hk : k = k'
    · subst hk
      simp [alGet, alUpd, h]
    · simp only [alUpd, if_neg hk, alGet]
      by_cases h2 : k₂ = k'
      · simp [h2]
      · rw [if_neg h2, if_neg h2]
        exact alGet_alUpd_ne k₂ k dflt f h rest

theorem alGet_alSet_self {β : Type} (k : Str) (v : β) :
    ∀ l : List (Str × β), alGet k (alSet k v l) = some v
  | [] => by simp [alGet, alSet]
  | (k', v') :: rest => by
    by_cases hk : k = k'
    · simp [alGet, alSet, hk]
    · simp only [alSet, if_neg hk, alGet, if_neg hk]
      exact alGet_alSet_self k v rest

theorem alGet_alSet_ne {β : Type} (k₂ k : Str) (v : β) (h : k₂ ≠ k) :
    ∀ l : List (Str × β), alGet k₂ (alSet k v l) = alGet k₂ l
  | [] => by simp [alGet, alSet, h]
  | (k', v') :: rest => by
    by_cases hk : k = k'
    · subst hk
      simp [alGet, alSet, h]
    · simp only [alSet, if_neg hk, alGet]
      by_cases h2 : k₂ = k'
      · simp [h2]
      · rw [if_neg h2, if_neg h2]
        exact alGet_alSet_ne k₂ k v h rest

theorem alSet_fresh {β : Type} (k : Str) (v : β) :
    ∀ l : List (Str × β), alGet k l = none → alSet k v l = l ++ [(k, v)]
  | [], _ => rfl
  | (k', v') :: rest, h => by
    by_cases hk : k = k'
    · exfalso
      simp [alGet, hk] at h
    · simp only [alGet, if_neg hk] at h
      simp only [alSet, if_neg hk, List.cons_append]
      rw [alSet_fresh k v rest h]

theorem alGet_append_none {β : Type} (k k₁ : Str) (v : β) (hne : k ≠ k₁) :
    ∀ l : List (Str × β), alGet k l = none → alGet k (l ++ [(k₁, v)]) = none
  | [], _ => by simp [alGet, hne]
  | (k', v') :: rest, h => by
    by_cases hk : k = k'
    · simp [alGet, hk] at h
    · simp only [alGet, if_neg hk] at h
      simp only [List.cons_append, alGet, if_neg hk]
      exact alGet_append_none k k₁ v hne rest h

theorem length_alSet_ge {β : Type} (k : Str) (v : β) :
    ∀ l : List (Str × β), l.length ≤ (alSet k v l).length
  | [] => by simp [alSet]
  | (k', v') :: rest => by
    by_cases hk : k = k'
    · simp [alSet, hk]
    · simp only [alSet, if_neg hk, List.length_cons]
      have := length_alSet_ge k v rest
      omega

theorem mem_keys_alUpd {β : Type} (d k : Str) (dflt : β) (f : β → β) :
    ∀ l : List (Str × β), d ∈ (alUpd k dflt f l).map Prod.fst →
      d = k ∨ d ∈ l.map Prod.fst
  | [], h => by
    simp only [alUpd, List.map_cons, List.map_nil] at h
    rcases List.mem_cons.mp h with h | h
    · exact Or.inl h
    · exact absurd h (List.not_mem_nil d)
  | (k', v) :: rest, h => by
    by_cases hk : k = k'
    · simp only [alUpd, if_pos hk, List.map_cons] at h
      simp only [List.map_cons]
      exact Or.inr h
    · simp only [alUpd, if_neg hk, List.map_cons] at h
      simp only [List.map_cons]
      rcases List.mem_cons.mp h with h | h
      · exact Or.inr (List.mem_cons.mpr (Or.inl h))
      · rcases mem_keys_alUpd d k dflt f rest h with h | h
        · exact Or.inl h
        · exact Or.inr (List.mem_cons.mpr (Or.inr h))

/-! ### Corpus access lemmas -/

theorem groupAsins_viv (d r : Str) (c : Corpus) :
    groupAsins d r (viv d r c) = groupAsins d r c := by
  unfold groupAsins viv
  rw [alGet_alUpd_self d [] (alUpd r [] id) c]
  simp only [Option.getD_some]
  rw [alGet_alUpd_self r [] id ((alGet d c).getD [])]
  simp

theorem getTexts_viv (d r a : Str) (c : Corpus) :
    getTexts d r a (viv d r c) = getTexts d r a c := by
  unfold getTexts
  rw [groupAsins_viv]

theorem groupAsins_appendLine (d r a t : Str) (c : Corpus) :
    groupAsins d r (appendLine d r a t c)
      = alUpd a [] (fun ts => ts ++ [t]) (groupAsins d r c) := by
  unfold groupAsins appendLine
  rw [alGet_alUpd_self d [] _ c]
  simp only [Option.getD_some]
  rw [alGet_alUpd_self r [] _ ((alGet d c).getD [])]
  simp

theorem getTexts_appendLine (d r a t : Str) (c : Corpus) :
    getTexts d r a (appendLine d r a t c)
      = some ((getTexts d r a c).getD [] ++ [t]) := by
  unfold getTexts
  rw [groupAsins_appendLine]
  rw [alGet_alUpd_self a [] _ (groupAsins d r c)]

/-! ### Claim C1: chunking completeness -/

/-- C1: for every (domain, rating) group whose body lines tokenize to a
token stream of length L, the chunker emits exactly L / block_size blocks,
the concatenation of the emitted blocks' pre-framing tokens equals the first
L / block_size * block_size tokens of the stream in order, and the trailing
L mod block_size tokens are discarded — every emitted block has exactly
block_size tokens, so no short block is ever emitted. -/
theorem chunking_completeness {α : Type} (tokenize : Str → List α) (bs : Nat)
    (h : 0 < bs) (am : AsinMap) :
    (pairBlocks tokenize bs am).length
        = ((pairTexts am).map tokenize).flatten.length / bs
    ∧ (pairBlocks tokenize bs am).flatten
        = ((pairTexts am).map tokenize).flatten.take
            (((pairTexts am).map tokenize).flatten.length / bs * bs)
    ∧ ∀ b ∈ pairBlocks tokenize bs am, b.length = bs := by
  unfold pairBlocks
  rw [feedGroup_eq tokenize bs h]
  obtain ⟨h1, h2, -, h4⟩ := drain_spec bs h (((pairTexts am).map tokenize).flatten)
  exact ⟨h1, h2, h4⟩

/-- A concrete one-identifier group used by the witnesses below. -/
def wAm : AsinMap := [(("a").toList, [("ab").toList, ("cde").toList])]

/-- A concrete one-pair corpus used by the witnesses below. -/
def wCorpus : Corpus := [(['d'], [(['5'], wAm)])]

theorem chunking_completeness_witness :
    0 < 2 ∧
    ((pairBlocks (fun s => s) 2 wAm).length
        = ((pairTexts wAm).map (fun s => s)).flatten.length / 2
     ∧ (pairBlocks (fun s => s) 2 wAm).flatten
        = ((pairTexts wAm).map (fun s => s)).flatten.take
            (((pairTexts wAm).map (fun s => s)).flatten.length / 2 * 2)
     ∧ ∀ b ∈ pairBlocks (fun s => s) 2 wAm, b.length = 2) :=
  ⟨by decide, chunking_completeness (fun s => s) 2 (by decide) wAm⟩

/-! ### Claim C2: no cross-group leakage -/

/-- C2: tokens from two different (domain, rating) groups never co-occur in
an emitted block.  For every (domain, rating) pair of the corpus, its blocks
equal a single drain of the pair's own concatenated token stream — the
buffer is created fresh for the pair and carried across all its identifiers
(leftovers carry over within the pair) — and every token of every block
emitted for the pair is a token of the pair's own stream. -/
theorem no_cross_pair_leakage {α : Type} (tokenize : Str → List α) (bs : Nat)
    (h : 0 < bs) (c : Corpus) :
    ∀ p ∈ pairsOf c,
      pairBlocks tokenize bs p.2.2
          = (drain bs (((pairTexts p.2.2).map tokenize).flatten)).1
      ∧ ∀ b ∈ pairBlocks tokenize bs p.2.2, ∀ t ∈ b,
          t ∈ ((pairTexts p.2.2).map tokenize).flatten := by
  intro p _
  constructor
  · unfold pairBlocks
    rw [feedGroup_eq tokenize bs h]
  · intro b hb t ht
    obtain ⟨-, h2, -, -⟩ := drain_spec bs h (((pairTexts p.2.2).map tokenize).flatten)
    unfold pairBlocks at hb
    rw [feedGroup_eq tokenize bs h] at hb
    have hmem : t ∈ (drain bs (((pairTexts p.2.2).map tokenize).flatten)).1.flatten :=
      List.mem_flatten_of_mem hb ht
    rw [h2] at hmem
    exact List.mem_of_mem_take hmem

theorem no_cross_pair_leakage_witness :
    0 < 2 ∧ (['d'], ['5'], wAm) ∈ pairsOf wCorpus ∧
    (pairBlocks (fun s => s) 2 wAm
        = (drain 2 (((pairTexts wAm).map (fun s => s)).flatten)).1
     ∧ ∀ b ∈ pairBlocks (fun s => s) 2 wAm, ∀ t ∈ b,
         t ∈ ((pairTexts wAm).map (fun s => s)).flatten) :=
  ⟨by decide, by decide,
    no_cross_pair_leakage (fun s => s) 2 (by decide) wCorpus
      (['d'], ['5'], wAm) (by decide)⟩

/-! ### Claim C3: the identifier cap -/

/-- Fifty one-line records for distinct identifiers i0..i49 of the pair
(d, 5) — filling the cap of `DiverseTagEmbDataset` — followed by one more
record with a body line for the already-tracked identifier i0. -/
def capLines : List Str :=
  ((List.range 50).map (fun n =>
    [("i" ++ Nat.repr n ++ " d 5").toList, ['t'], ([] : Str)])).flatten
  ++ [("i0 d 5").toList, ['u']]

set_option maxRecDepth 100000

/-- C3 counterexample: once the cap of 50 is reached, a body line for the
already-tracked identifier i0 is dropped as well — its text list stays
["t"] instead of accumulating to ["t", "u"] as the claim asserts. -/
theorem capped_tracked_line_dropped :
    getTexts (['d']) (['5']) (("i0").toList) (groupDiverse capLines) = some [['t']]
    ∧ getTexts (['d']) (['5']) (("i0").toList) (groupDiverse capLines)
        ≠ some [['t'], ['u']] := by
  have h : getTexts (['d']) (['5']) (("i0").toList) (groupDiverse capLines)
      = some [['t']] := by decide
  refine ⟨h, ?_⟩
  rw [h]
  decide

/-- C3 amended: the cap is checked before insertion against the number of
distinct identifiers currently tracked in the (domain, rating) pair; while
the count is below the cap a body line is appended to its identifier's list
(whether that identifier is new or already tracked), but once the cap is
reached EVERY body line of that pair is dropped — including lines for
identifiers already tracked (only the vivification performed by the
`len(...)` test itself takes place). -/
theorem capped_insertion_behavior (cap : Nat) (d r a t : Str) (c : Corpus) :
    getTexts d r a (addLineCapped cap d r a t c)
      = if (groupAsins d r (viv d r c)).length < cap
        then some ((getTexts d r a c).getD [] ++ [t])
        else getTexts d r a c := by
  simp only [addLineCapped]
  by_cases hcond : (groupAsins d r (viv d r c)).length < cap
  · rw [if_pos hcond, if_pos hcond, getTexts_appendLine, getTexts_viv]
  · rw [if_neg hcond, if_neg hcond, getTexts_viv]

/-! ### Claim C4: malformed headers -/

/-- C4 counterexample: a header line with exactly one whitespace token
(fewer than 2) does NOT fail with an index error — it parses, yielding the
token as both identifier and rating and an empty domain. -/
theorem one_token_header_parses :
    parseHeader (['x']) = some (['x'], [], ['x'])
    ∧ parseHeader (['x']) ≠ none := by
  refine ⟨by decide, by decide⟩

/-- C4 amended: header parsing fails with an index error (modelled as
`none`) exactly when the header has zero whitespace tokens; a one-token
header parses successfully, with identifier and rating both equal to the
token and an empty domain. -/
theorem header_parse_failure_iff (text : Str) :
    (parseHeader text = none ↔ pySplit text = [])
    ∧ (∀ t : Str, pySplit text = [t] → parseHeader text = some (t, [], t)) := by
  constructor
  · unfold parseHeader
    cases h : pySplit text with
    | nil => simp
    | cons seg rest => simp
  · intro t ht
    unfold parseHeader
    rw [ht]
    have hd : domainOf ([] : List Str) = [] := by decide
    simp [hd, List.getLastD]

theorem header_parse_failure_witness :
    pySplit (['a', 'b']) = [['a', 'b']]
    ∧ parseHeader (['a', 'b']) = some (['a', 'b'], [], ['a', 'b']) :=
  ⟨by decide, (header_parse_failure_iff (['a', 'b'])).2 (['a', 'b']) (by decide)⟩

/-! ### Claim C5: well-formed header parsing -/

/-- C5: a header line with at least two whitespace tokens parses into
identifier = the first token, rating = the last token, and domain = the
middle tokens rejoined with single spaces, split on "/", truncated to the
first three segments, and rejoined with "/". -/
theorem header_parse_wellformed (text first lst : Str) (mid : List Str)
    (h : pySplit text = first :: (mid ++ [lst])) :
    parseHeader text
      = some (first,
          List.intercalate (['/'])
            (((List.intercalate ([' ']) mid).splitOn '/').take 3),
          lst) := by
  unfold parseHeader
  rw [h]
  dsimp only
  rw [List.dropLast_concat, List.getLastD_concat]
  rfl

theorem header_parse_wellformed_witness :
    pySplit (("a b/c 5").toList) = ['a'] :: ([['b', '/', 'c']] ++ [['5']])
    ∧ parseHeader (("a b/c 5").toList)
      = some (['a'],
          List.intercalate (['/'])
            (((List.intercalate ([' ']) [['b', '/', 'c']]).splitOn '/').take 3),
          ['5']) :=
  ⟨by decide,
    header_parse_wellformed (("a b/c 5").toList) (['a']) (['5']) ([['b', '/', 'c']])
      (by decide)⟩

/-! ### Claim C6: cache verbatim load and idempotence -/

/-- C6: if the cache file derived from (variant, block_size, filename)
exists, construction returns the stored array verbatim — independent of the
currently built rows, with zero tokenizer invocations; consequently a second
construction against the file system left by a first one returns the
identical array and performs no tokenization. -/
theorem cache_load_verbatim_idempotent (fs : FileSys) (bs : Nat)
    (filename : Str) (built built2 : ExArray) (n n2 : Nat) :
    (∀ arr, alGet (doiCachePath bs filename) fs = some arr →
        getOrBuild fs (doiCachePath bs filename) built n = (arr, fs, 0))
    ∧ getOrBuild (getOrBuild fs (doiCachePath bs filename) built n).2.1
          (doiCachePath bs filename) built2 n2
        = ((getOrBuild fs (doiCachePath bs filename) built n).1,
           (getOrBuild fs (doiCachePath bs filename) built n).2.1, 0) := by
  constructor
  · intro arr harr
    unfold getOrBuild
    rw [harr]
  · cases hc : alGet (doiCachePath bs filename) fs with
    | some arr => simp [getOrBuild, hc]
    | none => simp [getOrBuild, hc, alGet_alSet_self]

/-- A concrete file system holding one cached DOI array. -/
def wFS : FileSys := [(doiCachePath 4 (("f.txt").toList), [[1, 2]])]

theorem cache_load_verbatim_witness :
    alGet (doiCachePath 4 (("f.txt").toList)) wFS = some [[1, 2]]
    ∧ getOrBuild wFS (doiCachePath 4 (("f.txt").toList)) [[9]] 7
        = ([[1, 2]], wFS, 0) :=
  ⟨by decide,
    (cache_load_verbatim_idempotent wFS 4 (("f.txt").toList) [[9]] [[8]] 7 3).1
      [[1, 2]] (by decide)⟩

/-! ### Claim C7: vocabulary build order -/

/-- The consecutive-id assignment described by the spec: the i-th domain of
the list receives id `n + i`. -/
def idsFrom (n : Nat) : List Str → Vocab
  | [] => []
  | d :: rest => (d, n) :: idsFrom (n + 1) rest

theorem foldl_alSet_fresh :
    ∀ (domains : List Str) (dict : Vocab),
      domains.Nodup → (∀ d ∈ domains, alGet d dict = none) →
      domains.foldl (fun dc d => alSet d dc.length dc) dict
        = dict ++ idsFrom dict.length domains
  | [], dict, _, _ => by simp [idsFrom]
  | d :: rest, dict, hnd, hfresh => by
    simp only [List.foldl_cons]
    have hfr : alGet d dict = none := hfresh d (by simp)
    rw [alSet_fresh d dict.length dict hfr]
    have hnd2 := List.nodup_cons.mp hnd
    have hfresh2 : ∀ e ∈ rest, alGet e (dict ++ [(d, dict.length)]) = none := by
      intro e he
      have hne : e ≠ d := by
        intro hcontra
        subst hcontra
        exact hnd2.1 he
      exact alGet_append_none e d dict.length hne dict (hfresh e (by simp [he]))
    rw [foldl_alSet_fresh rest (dict ++ [(d, dict.length)]) hnd2.2 hfresh2]
    simp [idsFrom, List.append_assoc]

theorem foldl_alSet_doi_fresh (dois : List Str) :
    ∀ (domains : List Str) (dict : Vocab),
      domains.Nodup → (∀ d ∈ domains, d ∉ dois) →
      (∀ d ∈ domains, alGet d dict = none) →
      domains.foldl (fun dc d => if d ∈ dois then dc else alSet d dc.length dc) dict
        = dict ++ idsFrom dict.length domains
  | [], dict, _, _, _ => by simp [idsFrom]
  | d :: rest, dict, hnd, hdois, hfresh => by
    simp only [List.foldl_cons]
    rw [if_neg (hdois d (by simp))]
    have hfr : alGet d dict = none := hfresh d (by simp)
    rw [alSet_fresh d dict.length dict hfr]
    have hnd2 := List.nodup_cons.mp hnd
    have hfresh2 : ∀ e ∈ rest, alGet e (dict ++ [(d, dict.length)]) = none := by
      intro e he
      have hne : e ≠ d := by
        intro hcontra
        subst hcontra
        exact hnd2.1 he
      exact alGet_append_none e d dict.length hne dict (hfresh e (by simp [he]))
    rw [foldl_alSet_doi_fresh dois rest (dict ++ [(d, dict.length)]) hnd2.2
      (fun e he => hdois e (by simp [he])) hfresh2]
    simp [idsFrom, List.append_assoc]

/-- Input whose single record carries the literal domain string `[DOI]`. -/
def doiClashLines : List Str := [("x [DOI] 5").toList, ['b']]

/-- C7 counterexample: a training corpus containing a domain literally named
`[DOI]` overwrites the reserved token's entry — after the build the token
`[DOI]` maps to 1, not to the reserved lowest id 0, and no entry holds 0. -/
theorem vocab_reserved_overwritten :
    alGet doiToken (doiVocab (groupDOI doiClashLines)) = some 1
    ∧ ¬ alGet doiToken (doiVocab (groupDOI doiClashLines)) = some 0 :=
  ⟨by decide, by decide⟩

/-- C7 amended: provided no corpus domain collides with a reserved token
(and corpus domains are distinct, as dict keys always are), the reserved
tokens keep the lowest ids starting at 0 and each domain receives the next
consecutive integer in first-seen corpus order; the build is a pure function
of the ordered domain list, so building twice from the same corpus yields
the identical mapping.  If a corpus domain equals a reserved token, the
reserved entry is overwritten with a later id instead. -/
theorem vocab_build_order (domains : List Str) :
    (domains.Nodup → (∀ d ∈ domains, d ≠ generalToken ∧ d ≠ otherToken) →
      buildVocabDiverse domains
        = (generalToken, 0) :: (otherToken, 1) :: idsFrom 2 domains)
    ∧ (domains.Nodup → (∀ d ∈ domains, d ∉ doiDois ∧ d ≠ doiToken) →
      buildVocabDOI doiDois domains = (doiToken, 0) :: idsFrom 1 domains)
    ∧ buildVocabDiverse domains = buildVocabDiverse domains
    ∧ buildVocabDOI doiDois domains = buildVocabDOI doiDois domains := by
  refine ⟨?_, ?_, rfl, rfl⟩
  · intro hnd hres
    unfold buildVocabDiverse
    have hfresh : ∀ d ∈ domains,
        alGet d [(generalToken, 0), (otherToken, 1)] = none := by
      intro d hd
      simp [alGet, (hres d hd).1, (hres d hd).2]
    rw [foldl_alSet_fresh domains [(generalToken, 0), (otherToken, 1)] hnd hfresh]
    rfl
  · intro hnd hres
    unfold buildVocabDOI
    have hfresh : ∀ d ∈ domains, alGet d [(doiToken, 0)] = none := by
      intro d hd
      simp [alGet, (hres d hd).2]
    rw [foldl_alSet_doi_fresh doiDois domains [(doiToken, 0)] hnd
      (fun d hd => (hres d hd).1) hfresh]
    rfl

theorem vocab_build_order_witness :
    buildVocabDiverse [['a'], ['b']]
        = (generalToken, 0) :: (otherToken, 1) :: idsFrom 2 [['a'], ['b']]
    ∧ buildVocabDOI doiDois [['a']] = (doiToken, 0) :: idsFrom 1 [['a']] :=
  ⟨(vocab_build_order [['a'], ['b']]).1 (by decide) (by decide),
   (vocab_build_order [['a']]).2.1 (by decide) (by decide)⟩

/-! ### Claim C8: uint16 storage and int64 retrieval -/

/-- C8: every example row is stored as 16-bit unsigned integers, so each
token or segment id is reduced modulo 2^16 at construction time, and
per-index retrieval widens the stored row to signed integers, so every
retrieved element lies in the range [0, 65535]. -/
theorem storage_uint16_range (rows : ExArray) (i : Nat) :
    (∀ r, rows[i]? = some r →
        getItem (storeExamples rows) i
          = some (r.map (fun v => widen (v % 65536))))
    ∧ (∀ out, getItem (storeExamples rows) i = some out →
        ∀ x ∈ out, 0 ≤ x ∧ x < 65536) := by
  constructor
  · intro r hr
    unfold getItem storeExamples
    rw [List.getElem?_map, hr]
    simp only [Option.map_some']
    congr 1
    rw [List.map_map]
    rfl
  · intro out hout x hx
    unfold getItem storeExamples at hout
    rw [List.getElem?_map] at hout
    cases hr : rows[i]? with
    | none =>
      rw [hr] at hout
      simp at hout
    | some r =>
      rw [hr] at hout
      simp only [Option.map_some'] at hout
      have hout2 := Option.some.inj hout
      subst hout2
      rw [List.map_map] at hx
      obtain ⟨v, -, hv⟩ := List.mem_map.mp hx
      subst hv
      have hlt : toUInt16 v < 65536 := Nat.mod_lt _ (by omega)
      simp only [Function.comp_apply, widen]
      omega

theorem storage_uint16_range_witness :
    getItem (storeExamples [[70000, 3]]) 0
        = some ([70000, 3].map (fun v => widen (v % 65536)))
    ∧ (0 ≤ (4464 : Int) ∧ (4464 : Int) < 65536) :=
  ⟨(storage_uint16_range [[70000, 3]] 0).1 [70000, 3] (by decide),
   (storage_uint16_range [[70000, 3]] 0).2 [(4464 : Int), (3 : Int)] (by decide)
     (4464 : Int) (by decide)⟩

/-! ### Claim C10: the TS variants require an existing cache -/

/-- C10: `LaptopTSDataset` and `RestTSDataset` construct successfully
exactly when their cache file already exists; when it is absent they fail
unconditionally without running any build pipeline, and on success they
return the cached array with the file system untouched (no file written). -/
theorem ts_variants_require_cache (fs : FileSys) (bs : Nat) (filename : Str) :
    (laptopTSInit fs bs filename = none
        ↔ alGet (laptopTSCachePath bs filename) fs = none)
    ∧ (restTSInit fs bs filename = none
        ↔ alGet (restTSCachePath bs filename) fs = none)
    ∧ (∀ arr, alGet (laptopTSCachePath bs filename) fs = some arr →
        laptopTSInit fs bs filename = some (arr, fs))
    ∧ (∀ arr, alGet (restTSCachePath bs filename) fs = some arr →
        restTSInit fs bs filename = some (arr, fs)) := by
  refine ⟨?_, ?_, ?_, ?_⟩
  · unfold laptopTSInit
    cases hc : alGet (laptopTSCachePath bs filename) fs <;> simp [hc]
  · unfold restTSInit
    cases hc : alGet (restTSCachePath bs filename) fs <;> simp [hc]
  · intro arr harr
    unfold laptopTSInit
    rw [harr]
  · intro arr harr
    unfold restTSInit
    rw [harr]

/-- A concrete file system holding one Laptop TS cache entry. -/
def wFS2 : FileSys := [(laptopTSCachePath 4 (("f.txt").toList), [[5]])]

theorem ts_variants_require_cache_witness :
    laptopTSInit [] 4 (("f.txt").toList) = none
    ∧ restTSInit [] 4 (("f.txt").toList) = none
    ∧ laptopTSInit wFS2 4 (("f.txt").toList) = some ([[5]], wFS2) :=
  ⟨((ts_variants_require_cache [] 4 (("f.txt").toList)).1).mpr (by decide),
   ((ts_variants_require_cache [] 4 (("f.txt").toList)).2.1).mpr (by decide),
   ((ts_variants_require_cache wFS2 4 (("f.txt").toList)).2.2.1) [[5]] (by decide)⟩

/-! ### Claim C9: DOI exclusion and segment ids -/

theorem headerUpdate_corpus (st : GState) (text : Str) :
    (headerUpdate st text).corpus = st.corpus := by
  unfold headerUpdate
  cases hp : parseHeader text with
  | none => rfl
  | some v =>
    rcases v with ⟨a, d, r⟩
    rfl

theorem doiStep_keys (dois : List Str) (st : GState) (line : Str)
    (h : ∀ d ∈ corpusDomains st.corpus, d ∉ dois) :
    ∀ d ∈ corpusDomains (doiStep dois st line).corpus, d ∉ dois := by
  unfold doiStep
  by_cases h0 : (strip line).isEmpty
  · simpa [h0] using h
  · simp only [if_neg h0]
    by_cases h1 : st.tagOn
    · simp only [if_pos h1]
      rw [headerUpdate_corpus]
      exact h
    · simp only [if_neg h1]
      by_cases h2 : st.domain ∈ dois
      · simpa [h2] using h
      · simp only [if_neg h2]
        intro d hd
        simp only [corpusDomains] at hd
        unfold appendLine at hd
        rcases mem_keys_alUpd d st.domain [] _ st.corpus hd with hd | hd
        · subst hd
          exact h2
        · exact h d hd

theorem groupDOI_keys_aux (dois : List Str) :
    ∀ (lines : List Str) (st : GState),
      (∀ d ∈ corpusDomains st.corpus, d ∉ dois) →
      ∀ d ∈ corpusDomains (lines.foldl (doiStep dois) st).corpus, d ∉ dois
  | [], _, h => h
  | line :: rest, st, h => by
    simp only [List.foldl_cons]
    exact groupDOI_keys_aux dois rest (doiStep dois st line)
      (doiStep_keys dois st line h)

/-- Body lines of DOI domains are filtered out, so DOI domains never become
corpus keys. -/
theorem groupDOI_keys (lines : List Str) :
    ∀ d ∈ corpusDomains (groupDOI lines), d ∉ doiDois :=
  groupDOI_keys_aux doiDois lines initGState
    (by intro d hd; simp [corpusDomains, initGState] at hd)

theorem foldl_preserves_good (dois : List Str) :
    ∀ (domains : List Str) (dict : Vocab) (d : Str) (s : Nat),
      1 ≤ dict.length → alGet d dict = some s → 1 ≤ s →
      ∃ s2, alGet d (domains.foldl
          (fun dc e => if e ∈ dois then dc else alSet e dc.length dc) dict) = some s2
        ∧ 1 ≤ s2
  | [], _, _, s, _, hget, hs => ⟨s, hget, hs⟩
  | e :: rest, dict, d, s, hlen, hget, hs => by
    simp only [List.foldl_cons]
    by_cases he : e ∈ dois
    · rw [if_pos he]
      exact foldl_preserves_good dois rest dict d s hlen hget hs
    · rw [if_neg he]
      by_cases hde : d = e
      · subst hde
        exact foldl_preserves_good dois rest (alSet d dict.length dict) d dict.length
          (le_trans hlen (length_alSet_ge d dict.length dict))
          (alGet_alSet_self d dict.length dict) hlen
      · have h2 : alGet d (alSet e dict.length dict) = some s := by
          rw [alGet_alSet_ne d e dict.length hde dict]
          exact hget
        exact foldl_preserves_good dois rest (alSet e dict.length dict) d s
          (le_trans hlen (length_alSet_ge e dict.length dict)) h2 hs

theorem buildVocabDOI_good (dois : List Str) :
    ∀ (domains : List Str) (dict : Vocab), 1 ≤ dict.length →
      ∀ d, d ∈ domains → d ∉ dois →
      ∃ s, alGet d (domains.foldl
          (fun dc e => if e ∈ dois then dc else alSet e dc.length dc) dict) = some s
        ∧ 1 ≤ s
  | [], _, _, d, hd, _ => absurd hd (List.not_mem_nil d)
  | e :: rest, dict, hlen, d, hd, hdois => by
    simp only [List.foldl_cons]
    rcases List.mem_cons.mp hd with hde | hd2
    · subst hde
      rw [if_neg hdois]
      exact foldl_preserves_good dois rest (alSet d dict.length dict) d dict.length
        (le_trans hlen (length_alSet_ge d dict.length dict))
        (alGet_alSet_self d dict.length dict) hlen
    · by_cases he : e ∈ dois
      · rw [if_pos he]
        exact buildVocabDOI_good dois rest dict hlen d hd2 hdois
      · rw [if_neg he]
        exact buildVocabDOI_good dois rest (alSet e dict.length dict)
          (le_trans hlen (length_alSet_ge e dict.length dict)) d hd2 hdois

/-- Every non-DOI corpus domain is in the built vocabulary with a strictly
positive id (the reserved id 0 is taken before the loop starts). -/
theorem doiVocab_pos (c : Corpus) (d : Str) (hd : d ∈ corpusDomains c)
    (hdois : d ∉ doiDois) :
    ∃ s, alGet d (doiVocab c) = some s ∧ 1 ≤ s :=
  buildVocabDOI_good doiDois (corpusDomains c) [(doiToken, 0)] (by simp) d hd hdois

theorem omapM_mem {α β : Type} (f : α → Option β) :
    ∀ (xs : List α) (ys : List β), omapM f xs = some ys →
      ∀ y ∈ ys, ∃ x ∈ xs, f x = some y
  | [], ys, h => by
    simp only [omapM] at h
    cases h
    intro y hy
    exact absurd hy (List.not_mem_nil y)
  | x :: xs, ys, h => by
    simp only [omapM] at h
    cases hfx : f x with
    | none =>
      rw [hfx] at h
      simp at h
    | some y0 =>
      rw [hfx] at h
      cases hrec : omapM f xs with
      | none =>
        rw [hrec] at h
        simp at h
      | some ys0 =>
        rw [hrec] at h
        have hys := Option.some.inj h
        subst hys
        intro y hy
        rcases List.mem_cons.mp hy with hy | hy
        · exact ⟨x, by simp, by rw [hfx, hy]⟩
        · obtain ⟨x2, hx2, hfx2⟩ := omapM_mem f xs ys0 hrec y hy
          exact ⟨x2, by simp [hx2], hfx2⟩

theorem pairsOf_fst_mem (c : Corpus) (p : Str × Str × AsinMap) (hp : p ∈ pairsOf c) :
    p.1 ∈ corpusDomains c := by
  unfold pairsOf at hp
  rw [List.mem_flatten] at hp
  obtain ⟨l, hl, hpl⟩ := hp
  obtain ⟨q, hq, hql⟩ := List.mem_map.mp hl
  subst hql
  obtain ⟨w, _, hwp⟩ := List.mem_map.mp hpl
  subst hwp
  exact List.mem_map.mpr ⟨q, hq, rfl⟩

/-- C9: in the exclude-DOI variant every record whose domain is in the DOI
set is dropped during grouping, so the corpus holds only non-DOI domains;
the branch emitting the merged `[DOI]` segment id is therefore unreachable
on the training path, and every emitted row starts with the vocabulary id of
its own (non-DOI) domain — an id that is never the reserved 0. -/
theorem doi_exclusion_segment_ids {α : Type} (tok : Tokenizer α) (bs : Nat)
    (lines : List Str) :
    (∀ d ∈ corpusDomains (groupDOI lines), d ∉ doiDois)
    ∧ (∀ rows, buildDOIExamples tok bs lines = some rows →
        ∀ row ∈ rows, ∃ d s, d ∈ corpusDomains (groupDOI lines) ∧ d ∉ doiDois
          ∧ alGet d (doiVocab (groupDOI lines)) = some s
          ∧ row.head? = some s ∧ s ≠ 0) := by
  refine ⟨groupDOI_keys lines, ?_⟩
  intro rows hrows row hrow
  simp only [buildDOIExamples] at hrows
  obtain ⟨rss, hrss, hflat⟩ := Option.map_eq_some'.mp hrows
  subst hflat
  rw [List.mem_flatten] at hrow
  obtain ⟨rs, hrs, hrowrs⟩ := hrow
  obtain ⟨p, hp, hfp⟩ := omapM_mem _ (pairsOf (groupDOI lines)) rss hrss rs hrs
  obtain ⟨b, _, hb⟩ :=
    omapM_mem _ (pairBlocks tok.tokenize bs p.2.2) rs hfp row hrowrs
  have hdmem : p.1 ∈ corpusDomains (groupDOI lines) :=
    pairsOf_fst_mem (groupDOI lines) p hp
  have hdois : p.1 ∉ doiDois := groupDOI_keys lines p.1 hdmem
  unfold rowOfBlock at hb
  rw [if_neg hdois] at hb
  obtain ⟨s, hs, hrow2⟩ := Option.map_eq_some'.mp hb
  obtain ⟨s2, hs2, hpos⟩ := doiVocab_pos (groupDOI lines) p.1 hdmem hdois
  have hss : s = s2 := Option.some.inj (hs.symm.trans hs2)
  refine ⟨p.1, s, hdmem, hdois, hs, ?_, ?_⟩
  · rw [← hrow2]
    rfl
  · omega

/-- The concrete tokenizer used by the C9 witness: one token per line,
token ids by token length, identity framing. -/
def lineTok : Tokenizer Str := ⟨fun s => [s], fun ts => ts.map List.length, id⟩

/-- The concrete two-line input used by the C9 witness. -/
def wLines : List Str := [("a d 5").toList, ['x']]

theorem doi_exclusion_segment_ids_witness :
    (['d'] ∉ doiDois)
    ∧ (∃ d s, d ∈ corpusDomains (groupDOI wLines) ∧ d ∉ doiDois
        ∧ alGet d (doiVocab (groupDOI wLines)) = some s
        ∧ ([1, 1] : List Nat).head? = some s ∧ s ≠ 0) :=
  ⟨(doi_exclusion_segment_ids lineTok 1 wLines).1 (['d']) (by decide),
   (doi_exclusion_segment_ids lineTok 1 wLines).2 [[1, 1]] (by decide)
     [1, 1] (by decide)⟩

end DomBert
